import Mathlib

/-!
Verification of the author-expansion crawler (`AuthorRepositoryFinder`) and of
the shard planner contract of the plugins-forum repository.

The TypeScript class `AuthorRepositoryFinder` is embedded shallowly:
its persisted state becomes a Lean structure, the external effects
(repository-list fetches, `git clone` / `grep` invocations, file-system
writes) become explicit parameters and event/operation traces, and the
control flow of `processAuthors`, `cloneAndSearchRepository`, `loadState`,
`saveState` and `saveDiscoveredRepositories` is reproduced branch by branch.
-/

namespace PluginsForum

/-- One entry of `processed_authors`; `last_processed` is a millisecond
timestamp (the code stores an ISO string and compares via `getTime()`). -/
structure ProcessedAuthorEntry where
  last_processed : Nat
  repositories_found : Nat
  success : Bool
  error : Option String
deriving DecidableEq, Repr

/-- The persisted `AuthorRepositoryFinderState`; `processed_authors` is the
JSON object modelled as an association list. -/
structure AuthorFinderState where
  last_updated : Nat
  current_author_index : Nat
  processed_authors : List (String × ProcessedAuthorEntry)
  discovered_repositories : List String
deriving DecidableEq, Repr

/-- `createInitialState()`. -/
def createInitialState (now : Nat) : AuthorFinderState :=
  { last_updated := now
    current_author_index := 0
    processed_authors := []
    discovered_repositories := [] }

/-- Lookup in the `processed_authors` object. -/
def lookupA : List (String × ProcessedAuthorEntry) → String → Option ProcessedAuthorEntry
  | [], _ => none
  | (b, e) :: t, a => if b = a then some e else lookupA t a

/-- Assignment `processed_authors[author] = e` on the JSON object: overwrite
in place when the key exists, append otherwise. -/
def setEntry : List (String × ProcessedAuthorEntry) → String → ProcessedAuthorEntry →
    List (String × ProcessedAuthorEntry)
  | [], a, e => [(a, e)]
  | (b, e') :: t, a, e => if b = a then (a, e) :: t else (b, e') :: setEntry t a e

/-- Result of one `execSync` call: normal exit 0 with stdout, kill by
timeout (SIGTERM, no exit status), nonzero exit status, or another failure. -/
inductive ExecResult where
  | ok (out : String)
  | timedOut
  | exitCode (code : Nat)
  | failed (msg : String)
deriving DecidableEq, Repr

/-- Environment of one `cloneAndSearchRepository` call: what the
`git clone` and the `grep` invocations would produce. -/
structure CloneEnv where
  clone : ExecResult
  grep : ExecResult
deriving DecidableEq, Repr

/-- The body of `cloneAndSearchRepository` up to but excluding the outer
`catch`: `git clone` first (any failure propagates), then `grep` inside the
inner `try` whose `catch` turns exit status 1 into `return false` and
rethrows everything else; a trimmed-nonempty stdout means a marker match. -/
def cloneSearchTry (env : CloneEnv) : Except ExecResult Bool :=
  match env.clone with
  | ExecResult.ok _ =>
    match env.grep with
    | ExecResult.ok out => Except.ok (out.trim != "")
    | ExecResult.exitCode 1 => Except.ok false
    | e => Except.error e
  | e => Except.error e

/-- `cloneAndSearchRepository` with its outer `catch`, which logs and
returns `false` for every escaping error (timeout or otherwise). -/
def cloneSearchFull (env : CloneEnv) : Except ExecResult Bool :=
  match cloneSearchTry env with
  | Except.ok b => Except.ok b
  | Except.error _ => Except.ok false

/-- The boolean the caller of `cloneAndSearchRepository` observes. -/
def cloneSearchCaught (env : CloneEnv) : Bool :=
  match cloneSearchTry env with
  | Except.ok b => b
  | Except.error _ => false

/-- Directory-level file-system operations of one clone-and-search call. -/
inductive DirOp where
  | mkdir (d : String)
  | gitCloneInto (d : String)
  | rmRf (d : String)
deriving DecidableEq, Repr

/-- Effect of one directory operation on the set (list) of existing
directories; `rmRf` models `fs.rmSync(..., recursive, force)`. -/
def applyDirOp (dirs : List String) : DirOp → List String
  | DirOp.mkdir d => d :: dirs
  | DirOp.gitCloneInto _ => dirs
  | DirOp.rmRf d => dirs.filter (fun x => x != d)

def applyDirOps (dirs : List String) (ops : List DirOp) : List String :=
  ops.foldl applyDirOp dirs

/-- `cloneAndSearchRepository`: `mkdtempSync` creates the scratch directory,
the clone is attempted, and the `finally` block removes the directory on
every path; the call yields the caught boolean and its operation trace. -/
def cloneAndSearchRepository (tempDir : String) (env : CloneEnv) : Bool × List DirOp :=
  (cloneSearchCaught env,
    [DirOp.mkdir tempDir, DirOp.gitCloneInto tempDir, DirOp.rmRf tempDir])

/-- One repository of an author, with the clone/grep environment its
processing would encounter. -/
structure RepoInfo where
  full_name : String
  env : CloneEnv
deriving DecidableEq, Repr

/-- First-occurrence deduplication, as `[...new Set(list)]` produces. -/
def jsDedupAux : List String → List String → List String
  | _, [] => []
  | seen, a :: rest =>
    if a ∈ seen then jsDedupAux seen rest else a :: jsDedupAux (a :: seen) rest

def jsDedup (l : List String) : List String := jsDedupAux [] l

/-- JavaScript `Array.prototype.sort()` on strings: lexicographic order. -/
def sortStrings (l : List String) : List String :=
  List.insertionSort (fun a b : String => a ≤ b) l

/-- The `author_discovered_repositories.json` artifact. -/
structure FoundRepositoryData where
  generated_at : Nat
  source : String
  count : Nat
  repositories : List String
deriving DecidableEq, Repr

/-- The object `saveDiscoveredRepositories` serializes: `count` is the raw
list length, `repositories` the deduplicated and sorted list. -/
def saveDiscoveredData (now : Nat) (disc : List String) : FoundRepositoryData :=
  { generated_at := now
    source := "Author repository discovery from plugin authors"
    count := disc.length
    repositories := sortStrings (jsDedup disc) }

/-- Observable events of a `processAuthors` run. -/
inductive REvent where
  | setIndex (i : Nat)
  | fetchAuthor (a : String)
  | cloneAttempt (repo : String)
  | record (a : String) (e : ProcessedAuthorEntry)
  | saveState (s : AuthorFinderState)
  | saveRepos (d : FoundRepositoryData)
deriving DecidableEq, Repr

/-- The per-author repository loop: every repository is clone-attempted in
order; a marker match bumps the counter and appends the full name to
`discovered_repositories` unless it is already present. -/
def processRepos : List RepoInfo → List String → Nat × List String × List REvent
  | [], disc => (0, disc, [])
  | r :: rest, disc =>
    let has := cloneSearchCaught r.env
    let disc1 :=
      if has then (if r.full_name ∈ disc then disc else disc ++ [r.full_name]) else disc
    let rec1 := processRepos rest disc1
    ((if has then 1 else 0) + rec1.1, rec1.2.1, REvent.cloneAttempt r.full_name :: rec1.2.2)

/-- The `try`/`catch` body of one author iteration (after the freshness
gate): fetch the repository list; a thrown fetch error records a failure
entry and saves; more than 100 repositories records a skip entry and
`continue`s without saving; otherwise every repository is processed, a
success entry is recorded, and state plus artifact are saved. -/
def workAuthor (fetch : String → Except String (List RepoInfo)) (now : Nat)
    (a : String) (s : AuthorFinderState) : AuthorFinderState × List REvent :=
  match fetch a with
  | Except.error msg =>
    let e : ProcessedAuthorEntry :=
      { last_processed := now, repositories_found := 0, success := false, error := some msg }
    let s2 := { s with processed_authors := setEntry s.processed_authors a e,
                       last_updated := now }
    (s2, [REvent.fetchAuthor a, REvent.record a e, REvent.saveState s2,
          REvent.saveRepos (saveDiscoveredData now s2.discovered_repositories)])
  | Except.ok repos =>
    if repos.length > 100 then
      let e : ProcessedAuthorEntry :=
        { last_processed := now, repositories_found := 0, success := true,
          error := some ("Skipped - too many repositories (" ++ toString repos.length ++ ")") }
      let s2 := { s with processed_authors := setEntry s.processed_authors a e }
      (s2, [REvent.fetchAuthor a, REvent.record a e])
    else
      let r := processRepos repos s.discovered_repositories
      let e : ProcessedAuthorEntry :=
        { last_processed := now, repositories_found := r.1, success := true, error := none }
      let s2 := { s with processed_authors := setEntry s.processed_authors a e,
                         discovered_repositories := r.2.1,
                         last_updated := now }
      (s2, REvent.fetchAuthor a :: r.2.2 ++
           [REvent.record a e, REvent.saveState s2,
            REvent.saveRepos (saveDiscoveredData now s2.discovered_repositories)])

/-- One iteration of the author loop: set `current_author_index`, apply the
7-day freshness gate (the code compares `(now - last) / 86400000 < 7` in
days), and otherwise run the author's unit of work. -/
def stepAuthor (fetch : String → Except String (List RepoInfo)) (now i : Nat)
    (a : String) (s : AuthorFinderState) : AuthorFinderState × List REvent :=
  let s1 := { s with current_author_index := i }
  match lookupA s1.processed_authors a with
  | some entry =>
    if (now - entry.last_processed) / 86400000 < 7 then
      (s1, [REvent.setIndex i])
    else
      let r := workAuthor fetch now a s1
      (r.1, REvent.setIndex i :: r.2)
  | none =>
    let r := workAuthor fetch now a s1
    (r.1, REvent.setIndex i :: r.2)

/-- The author loop from a given absolute index; an empty author name is
skipped by the falsy check before the index is even set. -/
def processLoop (fetch : String → Except String (List RepoInfo)) (now : Nat) :
    Nat → List String → AuthorFinderState → AuthorFinderState × List REvent
  | _, [], s => (s, [])
  | i, a :: rest, s =>
    if a = "" then processLoop fetch now (i + 1) rest s
    else
      let r := stepAuthor fetch now i a s
      let r2 := processLoop fetch now (i + 1) rest r.1
      (r2.1, r.2 ++ r2.2)

/-- `processAuthors()`: loop from the persisted `current_author_index`,
then reset the index to 0 and save state and artifact one final time. -/
def processAuthors (fetch : String → Except String (List RepoInfo)) (now : Nat)
    (authors : List String) (s : AuthorFinderState) : AuthorFinderState × List REvent :=
  let r := processLoop fetch now s.current_author_index
             (authors.drop s.current_author_index) s
  let s2 := { r.1 with current_author_index := 0, last_updated := now }
  (s2, r.2 ++ [REvent.saveState s2,
               REvent.saveRepos (saveDiscoveredData now s2.discovered_repositories)])

/-- The state a crash would find on disk: the snapshot carried by the last
`saveState` event of the trace, or the previously persisted default. -/
def lastSaved (evs : List REvent) (dflt : AuthorFinderState) : AuthorFinderState :=
  evs.foldl (fun acc e => match e with | REvent.saveState s => s | _ => acc) dflt

/-- Authors whose unit of work (the repository-list fetch) was performed. -/
def workedAuthors (evs : List REvent) : List String :=
  evs.filterMap (fun e => match e with | REvent.fetchAuthor a => some a | _ => none)

/-- `loadState()`: `file` is the state file's content when it exists;
`parseState` stands for `JSON.parse` plus the implicit structural reading.
The boolean records whether the recovery branch logged
"Failed to load state, creating new one". -/
def loadState (file : Option String) (parseState : String → Option AuthorFinderState)
    (now : Nat) : AuthorFinderState × Bool :=
  match file with
  | none => (createInitialState now, false)
  | some data =>
    match parseState data with
    | some st => (st, false)
    | none => (createInitialState now, true)

/-- File-level operations of the persistence functions. -/
inductive FsOp where
  | write (p : String) (content : String)
  | renameFile (src : String) (dst : String)
deriving DecidableEq, Repr

/-- `saveState()`: stamp `last_updated`, then one direct `writeFileSync`. -/
def saveStateOps (stateFile : String) (serialize : AuthorFinderState → String)
    (now : Nat) (s : AuthorFinderState) : List FsOp :=
  [FsOp.write stateFile (serialize { s with last_updated := now })]

/-- `saveDiscoveredRepositories()`: one direct `writeFileSync` of the
artifact. -/
def saveDiscoveredRepositoriesOps (outputFile : String)
    (serializeData : FoundRepositoryData → String) (now : Nat)
    (disc : List String) : List FsOp :=
  [FsOp.write outputFile (serializeData (saveDiscoveredData now disc))]

/-- Checks a trace for the record-then-persist discipline: once a
`record` event is pending, a `saveState` must occur before the next
author's work (its repository-list fetch) begins or the trace ends. -/
def savesEachRecord : Bool → List REvent → Bool
  | pending, [] => !pending
  | pending, e :: rest =>
    match e with
    | REvent.record _ _ => savesEachRecord true rest
    | REvent.saveState _ => savesEachRecord false rest
    | REvent.fetchAuthor _ => !pending && savesEachRecord pending rest
    | _ => savesEachRecord pending rest

/-- An operation list is an atomic replace of `target` when it writes a
temporary file and renames it over the target. -/
def isAtomicReplace (target : String) (ops : List FsOp) : Prop :=
  ∃ tmp content, tmp ≠ target ∧
    ops = [FsOp.write tmp content, FsOp.renameFile tmp target]

/-- Content of path `p` if the process crashes after `k` characters of a
`write` operation have reached the disk. -/
def fileAfterCrashInWrite (fs : String → Option String) (op : FsOp) (k : Nat)
    (p : String) : Option String :=
  match op with
  | FsOp.write q c => if p = q then some (c.take k) else fs p
  | FsOp.renameFile _ _ => fs p

/-- Fork dimension of a search shard (spec section 3). -/
inductive ForkMode where
  | excluded
  | only
deriving DecidableEq, Repr

/-- Status of a search shard; `overflowFlagged` is the logged lossy-partition
flag for a shard that cannot be halved further. -/
inductive ShardStatus where
  | pending
  | done
  | overflowFlagged
deriving DecidableEq, Repr

/-- A slice of the search space: inclusive byte-size range crossed with a
fork mode. -/
structure SearchShard where
  sizeRangeMin : Nat
  sizeRangeMax : Nat
  forkMode : ForkMode
  status : ShardStatus
deriving DecidableEq, Repr

/-- Lower half of a bisected shard: sizes up to the range midpoint. -/
def splitLow (sh : SearchShard) : SearchShard :=
  { sizeRangeMin := sh.sizeRangeMin
    sizeRangeMax := (sh.sizeRangeMin + sh.sizeRangeMax) / 2
    forkMode := sh.forkMode
    status := ShardStatus.pending }

/-- Upper half of a bisected shard: sizes above the range midpoint. -/
def splitHigh (sh : SearchShard) : SearchShard :=
  { sizeRangeMin := (sh.sizeRangeMin + sh.sizeRangeMax) / 2 + 1
    sizeRangeMax := sh.sizeRangeMax
    forkMode := sh.forkMode
    status := ShardStatus.pending }

/-- Modelled from the spec: the ShardPlanner component (spec section 4.1) is
not among the provided source files — only its contract is specified. At or
above the host's 1000-result page cap the shard is not marked done: its size
range is bisected, both halves are re-enqueued as pending and the original is
discarded; an unsplittable shard (width at most one byte) is flagged as an
overflow partition instead; below the cap the shard is marked done. -/
def recordResult (queue : List SearchShard) (shard : SearchShard)
    (totalCount : Nat) : List SearchShard :=
  if 1000 ≤ totalCount then
    if shard.sizeRangeMin < shard.sizeRangeMax then
      queue.filter (fun q => q != shard) ++ [splitLow shard, splitHigh shard]
    else
      queue.map (fun q =>
        if q = shard then { q with status := ShardStatus.overflowFlagged } else q)
  else
    queue.map (fun q => if q = shard then { q with status := ShardStatus.done } else q)

/-- A clone/grep environment in which the repository holds no marker:
the clone succeeds and `grep` exits with status 1. -/
def envNoMatch : CloneEnv :=
  { clone := ExecResult.ok "", grep := ExecResult.exitCode 1 }

/-- Fixture fetch function: the author "alice" owns 101 markerless
repositories, every other author owns none. -/
def fetchTooMany : String → Except String (List RepoInfo) :=
  fun a =>
    if a = "alice" then
      Except.ok (List.replicate 101 { full_name := "r0", env := envNoMatch })
    else Except.ok []

/-- Fixture fetch function: every author owns no repositories. -/
def fetchEmpty : String → Except String (List RepoInfo) :=
  fun _ => Except.ok []

/-- Fixture fetch function: every author owns exactly 100 markerless
repositories — at the guard threshold, not above it. -/
def fetchHundred : String → Except String (List RepoInfo) :=
  fun _ => Except.ok (List.replicate 100 { full_name := "r0", env := envNoMatch })

/-- Fixture `processed_authors` entry recorded at time 0. -/
def exampleEntry : ProcessedAuthorEntry :=
  { last_processed := 0, repositories_found := 0, success := true, error := none }

/-- Fixture state: the author "alice" was processed at time 0. -/
def exampleState : AuthorFinderState :=
  { last_updated := 0
    current_author_index := 0
    processed_authors := [("alice", exampleEntry)]
    discovered_repositories := [] }

/-! ## Basic lemmas about the state operations -/

theorem lookupA_setEntry_self (m : List (String × ProcessedAuthorEntry)) (a : String)
    (e : ProcessedAuthorEntry) : lookupA (setEntry m a e) a = some e := by
  induction m with
  | nil => simp [setEntry, lookupA]
  | cons p t ih =>
    obtain ⟨b, e'⟩ := p
    by_cases h : b = a
    · subst h
      simp [setEntry, lookupA]
    · simp [setEntry, h, lookupA, ih]

theorem lookupA_setEntry_ne (m : List (String × ProcessedAuthorEntry)) (a b : String)
    (e : ProcessedAuthorEntry) (h : b ≠ a) :
    lookupA (setEntry m a e) b = lookupA m b := by
  induction m with
  | nil => simp [setEntry, lookupA, Ne.symm h]
  | cons p t ih =>
    obtain ⟨c, e'⟩ := p
    by_cases hc : c = a
    · subst hc
      simp [setEntry, lookupA, Ne.symm h]
    · by_cases hb : c = b
      · subst hb
        simp [setEntry, hc, lookupA]
      · simp [setEntry, hc, lookupA, hb, ih]

theorem processRepos_events (repos : List RepoInfo) (disc : List String) :
    (processRepos repos disc).2.2 = repos.map (fun r => REvent.cloneAttempt r.full_name) := by
  induction repos generalizing disc with
  | nil => rfl
  | cons r rest ih => simp [processRepos, ih]

theorem processRepos_nodup (repos : List RepoInfo) (disc : List String)
    (h : disc.Nodup) : (processRepos repos disc).2.1.Nodup := by
  induction repos generalizing disc with
  | nil => exact h
  | cons r rest ih =>
    have h1 : (if cloneSearchCaught r.env then
        (if r.full_name ∈ disc then disc else disc ++ [r.full_name]) else disc).Nodup := by
      split
      · split
        · exact h
        · next hm => simp [List.nodup_append, h, hm]
      · exact h
    simpa [processRepos] using ih _ h1

theorem workedAuthors_append (l1 l2 : List REvent) :
    workedAuthors (l1 ++ l2) = workedAuthors l1 ++ workedAuthors l2 := by
  simp [workedAuthors]

theorem workedAuthors_cloneAttempts (repos : List RepoInfo) :
    workedAuthors (repos.map (fun r => REvent.cloneAttempt r.full_name)) = [] := by
  induction repos with
  | nil => rfl
  | cons r rest ih =>
    simp [workedAuthors] at ih
    simp [workedAuthors, ih]

theorem lastSaved_append (l1 l2 : List REvent) (d : AuthorFinderState) :
    lastSaved (l1 ++ l2) d = lastSaved l2 (lastSaved l1 d) := by
  simp [lastSaved, List.foldl_append]

theorem lastSaved_cloneAttempts (repos : List RepoInfo) (d : AuthorFinderState) :
    lastSaved (repos.map (fun r => REvent.cloneAttempt r.full_name)) d = d := by
  induction repos generalizing d with
  | nil => rfl
  | cons r rest ih => simpa [lastSaved] using ih d

/-! ## C1: persistence is a direct write, not an atomic replace -/

/-- C1 counterexample: `saveState` does not perform a write-to-temp-then-
rename sequence — its operation list is a single direct write of the state
file — and a crash one character into that write leaves the state file
holding "N" rather than the previously persisted content "OLD". -/
theorem saveState_not_atomic_cex :
    ¬ isAtomicReplace "author_finder_state.json"
        (saveStateOps "author_finder_state.json" (fun _ => "NEW") 0 (createInitialState 0)) ∧
    fileAfterCrashInWrite (fun _ => some "OLD")
        (FsOp.write "author_finder_state.json" "NEW") 1 "author_finder_state.json"
      ≠ some "OLD" := by
  constructor
  · rintro ⟨tmp, content, hne, heq⟩
    simp [saveStateOps] at heq
  · decide

/-- C1 amended: `saveState` and `saveDiscoveredRepositories` each persist by
one direct `writeFileSync` of the serialized JSON (no temporary file, no
rename), and a crash after `k` characters of that write leaves the target
file holding the `k`-character prefix of the new serialization — the
previously persisted content is not guaranteed to survive. -/
theorem saveState_direct_write (stateFile outputFile : String)
    (serialize : AuthorFinderState → String)
    (serializeData : FoundRepositoryData → String)
    (now k : Nat) (s : AuthorFinderState) (disc : List String)
    (fs : String → Option String) :
    saveStateOps stateFile serialize now s =
      [FsOp.write stateFile (serialize { s with last_updated := now })] ∧
    saveDiscoveredRepositoriesOps outputFile serializeData now disc =
      [FsOp.write outputFile (serializeData (saveDiscoveredData now disc))] ∧
    fileAfterCrashInWrite fs
        (FsOp.write stateFile (serialize { s with last_updated := now })) k stateFile =
      some ((serialize { s with last_updated := now }).take k) := by
  refine ⟨rfl, rfl, ?_⟩
  simp [fileAfterCrashInWrite]

/-! ## C5: the scratch directory is gone on every exit path -/

/-- C5: for every clone/grep outcome `env` and every prior directory state,
the scratch directory created for the clone does not exist after
`cloneAndSearchRepository` returns: the `finally` block's recursive forced
removal is the last directory operation on every path. -/
theorem clone_cleanup (tempDir : String) (env : CloneEnv) (dirs : List String) :
    tempDir ∉ applyDirOps dirs (cloneAndSearchRepository tempDir env).2 := by
  simp [cloneAndSearchRepository, applyDirOps, applyDirOp, List.mem_filter]

/-! ## C8: state loading recovers from absent or corrupt files -/

/-- C8 counterexample: when the state file is absent, `loadState` takes the
`else` branch that silently builds a fresh state — no recovery event is
logged, contradicting the claim that a recovery event is logged whenever the
file is absent or unparsable. -/
theorem loadState_absent_silent_cex :
    ¬ ((loadState none (fun _ => none) 0).2 = true) := by
  decide

/-- C8 amended: an absent state file yields a freshly initialized state
without logging; a file that fails to parse logs the recovery event and
yields a freshly initialized state; in both cases the fresh state has
index 0, no processed authors and no discovered repositories, and the load
never fails. -/
theorem loadState_recovery (parseState : String → Option AuthorFinderState)
    (now : Nat) (data : String) (hbad : parseState data = none) :
    loadState none parseState now = (createInitialState now, false) ∧
    loadState (some data) parseState now = (createInitialState now, true) ∧
    (createInitialState now).current_author_index = 0 ∧
    (createInitialState now).processed_authors = [] ∧
    (createInitialState now).discovered_repositories = [] := by
  refine ⟨rfl, ?_, rfl, rfl, rfl⟩
  simp [loadState, hbad]

/-- C8 witness: instantiating the recovery theorem at a parse function that
rejects everything. -/
theorem loadState_recovery_witness :
    loadState none (fun _ => none) 7 = (createInitialState 7, false) ∧
    loadState (some "corrupt") (fun _ => none) 7 = (createInitialState 7, true) :=
  ⟨(loadState_recovery (fun _ => none) 7 "corrupt" rfl).1,
   (loadState_recovery (fun _ => none) 7 "corrupt" rfl).2.1⟩

/-! ## C3: the 7-day freshness gate -/

theorem workAuthor_fetch_mem (fetch : String → Except String (List RepoInfo))
    (now : Nat) (a : String) (s : AuthorFinderState) :
    REvent.fetchAuthor a ∈ (workAuthor fetch now a s).2 := by
  unfold workAuthor
  cases h : fetch a with
  | error msg => simp
  | ok repos =>
    by_cases hlen : repos.length > 100 <;> simp [hlen]

/-- C3: an author with a `processed_authors` entry is skipped entirely when
fewer than 7 days have elapsed since `last_processed` — the state is
unchanged apart from `current_author_index` and the only event is the index
update, so no repository fetch, no clone and no entry update happen — and
once at least 7 days (604800000 ms) have elapsed the author's repository
fetch is performed again. -/
theorem freshness_gate (fetch : String → Except String (List RepoInfo))
    (now i : Nat) (a : String) (s : AuthorFinderState) (e : ProcessedAuthorEntry)
    (hlook : lookupA s.processed_authors a = some e) :
    ((now - e.last_processed) / 86400000 < 7 →
      stepAuthor fetch now i a s =
        ({ s with current_author_index := i }, [REvent.setIndex i])) ∧
    (604800000 ≤ now - e.last_processed →
      REvent.fetchAuthor a ∈ (stepAuthor fetch now i a s).2) := by
  constructor
  · intro ht
    simp [stepAuthor, hlook, ht]
  · intro ht
    have h7 : ¬ ((now - e.last_processed) / 86400000 < 7) := by
      have hd : (604800000 : Nat) / 86400000 ≤ (now - e.last_processed) / 86400000 :=
        Nat.div_le_div_right ht
      norm_num at hd
      omega
    simp only [stepAuthor, hlook, if_neg h7]
    simp [workAuthor_fetch_mem]

/-- C3 witness: an author processed at time 0 is skipped when re-checked at
time 0 plus 3 days and has its repositories fetched again at 0 plus 8 days. -/
theorem freshness_gate_witness :
    stepAuthor fetchEmpty 259200000 1 "alice" exampleState =
      ({ exampleState with current_author_index := 1 }, [REvent.setIndex 1]) ∧
    REvent.fetchAuthor "alice" ∈ (stepAuthor fetchEmpty 691200000 1 "alice" exampleState).2 :=
  ⟨(freshness_gate fetchEmpty 259200000 1 "alice" exampleState exampleEntry rfl).1
      (by norm_num [exampleEntry]),
   (freshness_gate fetchEmpty 691200000 1 "alice" exampleState exampleEntry rfl).2
      (by norm_num [exampleEntry])⟩

/-! ## C4: the 100-repository guard -/

/-- C4: when an author's fetched repository list exceeds 100 entries, the
step performs zero clone attempts and records an entry whose error field
states the skip reason; at or below 100 the guard does not fire: the
recorded entry has no error and every repository is clone-attempted. -/
theorem repo_count_guard (fetch : String → Except String (List RepoInfo))
    (now i : Nat) (a : String) (s : AuthorFinderState) (repos : List RepoInfo)
    (hfresh : lookupA s.processed_authors a = none)
    (hfetch : fetch a = Except.ok repos) :
    (repos.length > 100 →
      (stepAuthor fetch now i a s).2 =
        [REvent.setIndex i, REvent.fetchAuthor a,
         REvent.record a
           { last_processed := now, repositories_found := 0, success := true,
             error := some ("Skipped - too many repositories ("
               ++ toString repos.length ++ ")") }] ∧
      (∀ r, REvent.cloneAttempt r ∉ (stepAuthor fetch now i a s).2) ∧
      lookupA (stepAuthor fetch now i a s).1.processed_authors a =
        some { last_processed := now, repositories_found := 0, success := true,
               error := some ("Skipped - too many repositories ("
                 ++ toString repos.length ++ ")") }) ∧
    (repos.length ≤ 100 →
      lookupA (stepAuthor fetch now i a s).1.processed_authors a =
        some { last_processed := now,
               repositories_found := (processRepos repos s.discovered_repositories).1,
               success := true, error := none } ∧
      ∀ r ∈ repos, REvent.cloneAttempt r.full_name ∈ (stepAuthor fetch now i a s).2) := by
  constructor
  · intro hlen
    refine ⟨?_, ?_, ?_⟩
    · simp [stepAuthor, hfresh, workAuthor, hfetch, hlen]
    · intro r
      simp [stepAuthor, hfresh, workAuthor, hfetch, hlen]
    · simp [stepAuthor, hfresh, workAuthor, hfetch, hlen, lookupA_setEntry_self]
  · intro hlen
    have hlen' : ¬ (repos.length > 100) := by omega
    constructor
    · simp [stepAuthor, hfresh, workAuthor, hfetch, hlen', lookupA_setEntry_self]
    · intro r hr
      simp [stepAuthor, hfresh, workAuthor, hfetch, hlen', processRepos_events]
      exact ⟨r, hr, rfl⟩

/-- C4 witness: an author owning 101 repositories triggers zero clone
attempts and a recorded skip reason; an author owning exactly 100 gets a
normal entry with no error. -/
theorem repo_count_guard_witness :
    (stepAuthor fetchTooMany 0 0 "alice" (createInitialState 0)).2 =
      [REvent.setIndex 0, REvent.fetchAuthor "alice",
       REvent.record "alice"
         { last_processed := 0, repositories_found := 0, success := true,
           error := some "Skipped - too many repositories (101)" }] ∧
    lookupA (stepAuthor fetchHundred 0 0 "carol" (createInitialState 0)).1.processed_authors
        "carol" =
      some { last_processed := 0, repositories_found := 0, success := true, error := none } := by
  constructor
  · exact ((repo_count_guard fetchTooMany 0 0 "alice" (createInitialState 0) _
      rfl rfl).1 (by decide)).1.trans (by decide)
  · exact ((repo_count_guard fetchHundred 0 0 "carol" (createInitialState 0) _
      rfl rfl).2 (by decide)).1.trans (by decide)

/-! ## C6: per-repository failures never escape -/

/-- C6: `cloneAndSearchRepository` with its outer catch never lets an error
escape — it always resolves to the caught boolean; a failed clone (timeout
or any error) yields `false`, as does a grep invocation that does not exit
normally; and the per-author repository loop clone-attempts every repository
of the list regardless of these outcomes. -/
theorem clone_failures_contained (env : CloneEnv) (repos : List RepoInfo)
    (disc : List String) :
    cloneSearchFull env = Except.ok (cloneSearchCaught env) ∧
    ((∀ out, env.clone ≠ ExecResult.ok out) → cloneSearchCaught env = false) ∧
    (∀ out, env.clone = ExecResult.ok out →
      (∀ out2, env.grep ≠ ExecResult.ok out2) → cloneSearchCaught env = false) ∧
    (processRepos repos disc).2.2 = repos.map (fun r => REvent.cloneAttempt r.full_name) := by
  refine ⟨?_, ?_, ?_, processRepos_events repos disc⟩
  · unfold cloneSearchFull cloneSearchCaught
    cases cloneSearchTry env <;> rfl
  · intro hclone
    unfold cloneSearchCaught cloneSearchTry
    cases h : env.clone with
    | ok out => exact absurd h (hclone out)
    | timedOut => rfl
    | exitCode c => rfl
    | failed msg => rfl
  · intro out hclone hgrep
    unfold cloneSearchCaught cloneSearchTry
    rw [hclone]
    cases h : env.grep with
    | ok out2 => exact absurd h (hgrep out2)
    | timedOut => rfl
    | exitCode c =>
      rcases c with _ | _ | n <;> rfl
    | failed msg => rfl

/-- C6 witness: a timed-out clone and a timed-out grep both resolve to
`false` instead of raising. -/
theorem clone_failures_contained_witness :
    cloneSearchCaught { clone := ExecResult.timedOut, grep := ExecResult.timedOut } = false ∧
    cloneSearchCaught { clone := ExecResult.ok "", grep := ExecResult.timedOut } = false :=
  ⟨(clone_failures_contained
      { clone := ExecResult.timedOut, grep := ExecResult.timedOut } [] []).2.1
      (fun _ h => nomatch h),
   (clone_failures_contained
      { clone := ExecResult.ok "", grep := ExecResult.timedOut } [] []).2.2.1 "" rfl
      (fun _ h => nomatch h)⟩

/-! ## C9: a capped shard is bisected, never marked done -/

/-- C9 (modelled from the spec, ShardPlanner source not provided): a shard
whose query reports at least the 1000-result cap and whose range is
splittable is removed from the queue and replaced by exactly two pending
shards whose inclusive ranges partition the original range with no overlap;
no shard becomes `done` in the process. -/
theorem recordResult_split (queue : List SearchShard) (shard : SearchShard)
    (totalCount : Nat) (hcap : 1000 ≤ totalCount) (_hmem : shard ∈ queue)
    (hsplit : shard.sizeRangeMin < shard.sizeRangeMax) :
    shard ∉ recordResult queue shard totalCount ∧
    splitLow shard ∈ recordResult queue shard totalCount ∧
    splitHigh shard ∈ recordResult queue shard totalCount ∧
    (splitLow shard).status = ShardStatus.pending ∧
    (splitHigh shard).status = ShardStatus.pending ∧
    (∀ q ∈ recordResult queue shard totalCount, q.status = ShardStatus.done → q ∈ queue) ∧
    (∀ n, (shard.sizeRangeMin ≤ n ∧ n ≤ shard.sizeRangeMax) ↔
      (((splitLow shard).sizeRangeMin ≤ n ∧ n ≤ (splitLow shard).sizeRangeMax) ∨
       ((splitHigh shard).sizeRangeMin ≤ n ∧ n ≤ (splitHigh shard).sizeRangeMax))) ∧
    (∀ n, ¬ (((splitLow shard).sizeRangeMin ≤ n ∧ n ≤ (splitLow shard).sizeRangeMax) ∧
             ((splitHigh shard).sizeRangeMin ≤ n ∧ n ≤ (splitHigh shard).sizeRangeMax))) := by
  have hmid1 : shard.sizeRangeMin ≤ (shard.sizeRangeMin + shard.sizeRangeMax) / 2 := by
    omega
  have hmid2 : (shard.sizeRangeMin + shard.sizeRangeMax) / 2 < shard.sizeRangeMax := by
    omega
  have hres : recordResult queue shard totalCount =
      queue.filter (fun q => q != shard) ++ [splitLow shard, splitHigh shard] := by
    simp [recordResult, hcap, hsplit]
  refine ⟨?_, ?_, ?_, rfl, rfl, ?_, ?_, ?_⟩
  · rw [hres]
    intro hmem2
    rcases List.mem_append.mp hmem2 with h | h
    · have := List.of_mem_filter h
      simp at this
    · simp only [List.mem_cons, List.not_mem_nil, or_false] at h
      rcases h with h | h
      · have := congrArg SearchShard.sizeRangeMax h
        simp [splitLow] at this
        omega
      · have := congrArg SearchShard.sizeRangeMin h
        simp [splitHigh] at this
        omega
  · rw [hres]; simp
  · rw [hres]; simp
  · rw [hres]
    intro q hq hdone
    rcases List.mem_append.mp hq with h | h
    · exact List.mem_of_mem_filter h
    · simp only [List.mem_cons, List.not_mem_nil, or_false] at h
      rcases h with h | h
      · rw [h] at hdone
        simp [splitLow] at hdone
      · rw [h] at hdone
        simp [splitHigh] at hdone
  · intro n
    simp only [splitLow, splitHigh]
    omega
  · intro n
    simp only [splitLow, splitHigh]
    omega

/-- C9 witness: the full-range shard of the 384 KB ceiling reporting exactly
the cap is replaced by its two pending halves. -/
theorem recordResult_split_witness :
    let sh : SearchShard :=
      { sizeRangeMin := 0, sizeRangeMax := 393216,
        forkMode := ForkMode.excluded, status := ShardStatus.pending }
    sh ∉ recordResult [sh] sh 1000 ∧
    splitLow sh ∈ recordResult [sh] sh 1000 ∧
    splitHigh sh ∈ recordResult [sh] sh 1000 := by
  intro sh
  have h := recordResult_split [sh] sh 1000 (by decide) (by decide) (by decide)
  exact ⟨h.1, h.2.1, h.2.2.1⟩

/-! ## Characterization of one author step -/

theorem lastSaved_cons_setIndex (i : Nat) (l : List REvent) (d : AuthorFinderState) :
    lastSaved (REvent.setIndex i :: l) d = lastSaved l d := rfl

theorem lastSaved_cons_fetch (a : String) (l : List REvent) (d : AuthorFinderState) :
    lastSaved (REvent.fetchAuthor a :: l) d = lastSaved l d := rfl

theorem lastSaved_cons_clone (r : String) (l : List REvent) (d : AuthorFinderState) :
    lastSaved (REvent.cloneAttempt r :: l) d = lastSaved l d := rfl

theorem lastSaved_cons_record (a : String) (e : ProcessedAuthorEntry) (l : List REvent)
    (d : AuthorFinderState) : lastSaved (REvent.record a e :: l) d = lastSaved l d := rfl

theorem lastSaved_cons_save (st : AuthorFinderState) (l : List REvent)
    (d : AuthorFinderState) : lastSaved (REvent.saveState st :: l) d = lastSaved l st := rfl

theorem lastSaved_cons_saveRepos (r : FoundRepositoryData) (l : List REvent)
    (d : AuthorFinderState) : lastSaved (REvent.saveRepos r :: l) d = lastSaved l d := rfl

theorem lastSaved_nil (d : AuthorFinderState) : lastSaved [] d = d := rfl

theorem lastSaved_clone_append (repos : List RepoInfo) (l : List REvent)
    (d : AuthorFinderState) :
    lastSaved ((repos.map fun r => REvent.cloneAttempt r.full_name) ++ l) d = lastSaved l d := by
  rw [lastSaved_append, lastSaved_cloneAttempts]

theorem workedAuthors_nil : workedAuthors [] = [] := rfl

theorem workedAuthors_cons_fetch (a : String) (l : List REvent) :
    workedAuthors (REvent.fetchAuthor a :: l) = a :: workedAuthors l := rfl

theorem workedAuthors_cons_setIndex (i : Nat) (l : List REvent) :
    workedAuthors (REvent.setIndex i :: l) = workedAuthors l := rfl

theorem workedAuthors_cons_record (a : String) (e : ProcessedAuthorEntry)
    (l : List REvent) : workedAuthors (REvent.record a e :: l) = workedAuthors l := rfl

theorem workedAuthors_cons_save (st : AuthorFinderState) (l : List REvent) :
    workedAuthors (REvent.saveState st :: l) = workedAuthors l := rfl

theorem workedAuthors_cons_saveRepos (r : FoundRepositoryData) (l : List REvent) :
    workedAuthors (REvent.saveRepos r :: l) = workedAuthors l := rfl

theorem workAuthor_char (fetch : String → Except String (List RepoInfo))
    (now : Nat) (a : String) (s : AuthorFinderState) :
    (∃ e : ProcessedAuthorEntry, e.last_processed = now ∧
      (workAuthor fetch now a s).1.processed_authors = setEntry s.processed_authors a e) ∧
    (workAuthor fetch now a s).1.current_author_index = s.current_author_index ∧
    workedAuthors (workAuthor fetch now a s).2 = [a] := by
  cases hf : fetch a with
  | error msg =>
    refine ⟨⟨(⟨now, 0, false, some msg⟩ : ProcessedAuthorEntry), rfl, ?_⟩, ?_, ?_⟩ <;>
      simp [workAuthor, hf, workedAuthors_cons_fetch, workedAuthors_cons_record,
        workedAuthors_cons_save, workedAuthors_cons_saveRepos, workedAuthors_nil]
  | ok repos =>
    by_cases hlen : repos.length > 100
    · refine ⟨⟨(⟨now, 0, true, some ("Skipped - too many repositories ("
          ++ toString repos.length ++ ")")⟩ : ProcessedAuthorEntry), rfl, ?_⟩, ?_, ?_⟩ <;>
        simp [workAuthor, hf, hlen, workedAuthors_cons_fetch, workedAuthors_cons_record,
          workedAuthors_nil]
    · refine ⟨⟨(⟨now, (processRepos repos s.discovered_repositories).1, true, none⟩ :
          ProcessedAuthorEntry), rfl, ?_⟩, ?_, ?_⟩
      · simp [workAuthor, hf, hlen]
      · simp [workAuthor, hf, hlen]
      · simp only [workAuthor, hf, if_neg hlen, processRepos_events]
        rw [workedAuthors_append, workedAuthors_cons_fetch, workedAuthors_cloneAttempts,
          workedAuthors_cons_record, workedAuthors_cons_save,
          workedAuthors_cons_saveRepos, workedAuthors_nil]
        rfl

theorem workAuthor_processed_ne (fetch : String → Except String (List RepoInfo))
    (now : Nat) (a b : String) (s : AuthorFinderState) (h : b ≠ a) :
    lookupA (workAuthor fetch now a s).1.processed_authors b =
      lookupA s.processed_authors b := by
  obtain ⟨e, -, he⟩ := (workAuthor_char fetch now a s).1
  rw [he, lookupA_setEntry_ne _ _ _ _ h]

theorem workAuthor_processed_self (fetch : String → Except String (List RepoInfo))
    (now : Nat) (a : String) (s : AuthorFinderState) :
    ∃ e : ProcessedAuthorEntry, e.last_processed = now ∧
      lookupA (workAuthor fetch now a s).1.processed_authors a = some e := by
  obtain ⟨e, hlast, he⟩ := (workAuthor_char fetch now a s).1
  exact ⟨e, hlast, by rw [he, lookupA_setEntry_self]⟩

theorem workAuthor_lastSaved_small (fetch : String → Except String (List RepoInfo))
    (now : Nat) (a : String) (s : AuthorFinderState)
    (hsmall : ∀ repos, fetch a = Except.ok repos → repos.length ≤ 100)
    (d : AuthorFinderState) :
    lastSaved (workAuthor fetch now a s).2 d = (workAuthor fetch now a s).1 := by
  cases hf : fetch a with
  | error msg =>
    simp [workAuthor, hf, lastSaved_cons_fetch, lastSaved_cons_record, lastSaved_cons_save,
      lastSaved_cons_saveRepos, lastSaved_nil]
  | ok repos =>
    have hlen : ¬ (repos.length > 100) := by
      have := hsmall repos hf
      omega
    simp only [workAuthor, hf, if_neg hlen, processRepos_events]
    rw [lastSaved_append, lastSaved_cons_fetch, lastSaved_cloneAttempts,
      lastSaved_cons_record, lastSaved_cons_save, lastSaved_cons_saveRepos, lastSaved_nil]

theorem workAuthor_disc_nodup (fetch : String → Except String (List RepoInfo))
    (now : Nat) (a : String) (s : AuthorFinderState)
    (h : s.discovered_repositories.Nodup) :
    (workAuthor fetch now a s).1.discovered_repositories.Nodup := by
  cases hf : fetch a with
  | error msg =>
    simp only [workAuthor, hf]
    exact h
  | ok repos =>
    by_cases hlen : repos.length > 100
    · simp only [workAuthor, hf, if_pos hlen]
      exact h
    · simp only [workAuthor, hf, if_neg hlen]
      exact processRepos_nodup repos _ h

theorem stepAuthor_skip (fetch : String → Except String (List RepoInfo))
    (now i : Nat) (a : String) (s : AuthorFinderState) (e : ProcessedAuthorEntry)
    (hl : lookupA s.processed_authors a = some e)
    (ht : (now - e.last_processed) / 86400000 < 7) :
    stepAuthor fetch now i a s = ({ s with current_author_index := i }, [REvent.setIndex i]) := by
  simp [stepAuthor, hl, ht]

theorem stepAuthor_work_none (fetch : String → Except String (List RepoInfo))
    (now i : Nat) (a : String) (s : AuthorFinderState)
    (hl : lookupA s.processed_authors a = none) :
    (stepAuthor fetch now i a s).1 =
      (workAuthor fetch now a { s with current_author_index := i }).1 ∧
    (stepAuthor fetch now i a s).2 =
      REvent.setIndex i :: (workAuthor fetch now a { s with current_author_index := i }).2 := by
  simp [stepAuthor, hl]

theorem stepAuthor_work_stale (fetch : String → Except String (List RepoInfo))
    (now i : Nat) (a : String) (s : AuthorFinderState) (e : ProcessedAuthorEntry)
    (hl : lookupA s.processed_authors a = some e)
    (ht : ¬ ((now - e.last_processed) / 86400000 < 7)) :
    (stepAuthor fetch now i a s).1 =
      (workAuthor fetch now a { s with current_author_index := i }).1 ∧
    (stepAuthor fetch now i a s).2 =
      REvent.setIndex i :: (workAuthor fetch now a { s with current_author_index := i }).2 := by
  simp [stepAuthor, hl, ht]

theorem stepAuthor_processed_ne (fetch : String → Except String (List RepoInfo))
    (now i : Nat) (a b : String) (s : AuthorFinderState) (h : b ≠ a) :
    lookupA (stepAuthor fetch now i a s).1.processed_authors b =
      lookupA s.processed_authors b := by
  cases hl : lookupA s.processed_authors a with
  | some e =>
    by_cases ht : (now - e.last_processed) / 86400000 < 7
    · rw [stepAuthor_skip fetch now i a s e hl ht]
    · rw [(stepAuthor_work_stale fetch now i a s e hl ht).1]
      exact workAuthor_processed_ne fetch now a b _ h
  | none =>
    rw [(stepAuthor_work_none fetch now i a s hl).1]
    exact workAuthor_processed_ne fetch now a b _ h

theorem stepAuthor_disc_nodup (fetch : String → Except String (List RepoInfo))
    (now i : Nat) (a : String) (s : AuthorFinderState)
    (h : s.discovered_repositories.Nodup) :
    (stepAuthor fetch now i a s).1.discovered_repositories.Nodup := by
  cases hl : lookupA s.processed_authors a with
  | some e =>
    by_cases ht : (now - e.last_processed) / 86400000 < 7
    · rw [stepAuthor_skip fetch now i a s e hl ht]
      exact h
    · rw [(stepAuthor_work_stale fetch now i a s e hl ht).1]
      exact workAuthor_disc_nodup fetch now a _ h
  | none =>
    rw [(stepAuthor_work_none fetch now i a s hl).1]
    exact workAuthor_disc_nodup fetch now a _ h

/-! ## The author loop -/

theorem processLoop_worked (fetch : String → Except String (List RepoInfo)) (now : Nat) :
    ∀ (auths : List String) (i : Nat) (s : AuthorFinderState),
      auths.Nodup → (∀ a ∈ auths, a ≠ "") →
      (∀ a ∈ auths, lookupA s.processed_authors a = none) →
      workedAuthors (processLoop fetch now i auths s).2 = auths := by
  intro auths
  induction auths with
  | nil =>
    intro i s _ _ _
    rfl
  | cons a rest ih =>
    intro i s hnd hne hnone
    have ha : a ≠ "" := hne a (List.mem_cons_self a rest)
    have hla : lookupA s.processed_authors a = none := hnone a (List.mem_cons_self a rest)
    have hanotin : a ∉ rest := (List.nodup_cons.mp hnd).1
    have hihnone : ∀ b ∈ rest,
        lookupA (stepAuthor fetch now i a s).1.processed_authors b = none := by
      intro b hb
      rw [stepAuthor_processed_ne fetch now i a b s (fun hba => hanotin (hba ▸ hb))]
      exact hnone b (List.mem_cons_of_mem a hb)
    simp only [processLoop, if_neg ha]
    rw [workedAuthors_append, (stepAuthor_work_none fetch now i a s hla).2,
      workedAuthors_cons_setIndex,
      (workAuthor_char fetch now a { s with current_author_index := i }).2.2,
      ih (i + 1) _ ((List.nodup_cons.mp hnd).2)
        (fun b hb => hne b (List.mem_cons_of_mem a hb)) hihnone]
    rfl

theorem processLoop_run1 (fetch : String → Except String (List RepoInfo)) (t1 : Nat)
    (hsmall : ∀ a repos, fetch a = Except.ok repos → repos.length ≤ 100) :
    ∀ (auths : List String) (i : Nat) (s d : AuthorFinderState),
      auths.Nodup → (∀ a ∈ auths, a ≠ "") →
      (∀ a ∈ auths, lookupA s.processed_authors a = none) →
      (∀ a ∈ auths, ∃ e : ProcessedAuthorEntry,
        lookupA (processLoop fetch t1 i auths s).1.processed_authors a = some e ∧
        e.last_processed = t1) ∧
      (∀ b, b ∉ auths →
        lookupA (processLoop fetch t1 i auths s).1.processed_authors b =
          lookupA s.processed_authors b) ∧
      (auths ≠ [] →
        lastSaved (processLoop fetch t1 i auths s).2 d = (processLoop fetch t1 i auths s).1 ∧
        (processLoop fetch t1 i auths s).1.current_author_index = i + auths.length - 1) := by
  intro auths
  induction auths with
  | nil =>
    intro i s d _ _ _
    exact ⟨by simp, fun b _ => rfl, fun h => absurd rfl h⟩
  | cons a rest ih =>
    intro i s d hnd hne hnone
    have ha : a ≠ "" := hne a (List.mem_cons_self a rest)
    have hla : lookupA s.processed_authors a = none := hnone a (List.mem_cons_self a rest)
    have hanotin : a ∉ rest := (List.nodup_cons.mp hnd).1
    have hstep := stepAuthor_work_none fetch t1 i a s hla
    have hstepself : ∃ e : ProcessedAuthorEntry, e.last_processed = t1 ∧
        lookupA (stepAuthor fetch t1 i a s).1.processed_authors a = some e := by
      rw [hstep.1]
      exact workAuthor_processed_self fetch t1 a _
    have hstepidx : (stepAuthor fetch t1 i a s).1.current_author_index = i := by
      rw [hstep.1]
      exact (workAuthor_char fetch t1 a _).2.1
    have hstepsaved : ∀ d' : AuthorFinderState,
        lastSaved (stepAuthor fetch t1 i a s).2 d' = (stepAuthor fetch t1 i a s).1 := by
      intro d'
      rw [hstep.2, lastSaved_cons_setIndex, hstep.1]
      exact workAuthor_lastSaved_small fetch t1 a _ (fun repos hr => hsmall a repos hr) d'
    have hihnone : ∀ b ∈ rest,
        lookupA (stepAuthor fetch t1 i a s).1.processed_authors b = none := by
      intro b hb
      rw [stepAuthor_processed_ne fetch t1 i a b s (fun hba => hanotin (hba ▸ hb))]
      exact hnone b (List.mem_cons_of_mem a hb)
    obtain ⟨ih1, ih2, ih3⟩ := ih (i + 1) ((stepAuthor fetch t1 i a s).1)
      ((stepAuthor fetch t1 i a s).1) ((List.nodup_cons.mp hnd).2)
      (fun b hb => hne b (List.mem_cons_of_mem a hb)) hihnone
    simp only [processLoop, if_neg ha]
    refine ⟨?_, ?_, fun _ => ⟨?_, ?_⟩⟩
    · intro x hx
      rcases List.mem_cons.mp hx with rfl | hx'
      · obtain ⟨e, hlast, hle⟩ := hstepself
        exact ⟨e, (ih2 x hanotin).trans hle, hlast⟩
      · exact ih1 x hx'
    · intro b hb
      rw [List.mem_cons, not_or] at hb
      rw [ih2 b hb.2, stepAuthor_processed_ne fetch t1 i a b s hb.1]
    · rw [lastSaved_append, hstepsaved d]
      cases rest with
      | nil => rfl
      | cons b rest' => exact (ih3 (by simp)).1
    · cases rest with
      | nil => exact hstepidx.trans (by simp)
      | cons b rest' =>
        have hidx := (ih3 (by simp)).2
        rw [hidx]
        simp only [List.length_cons]
        omega

/-! ## C2: crash-resume behavior -/

/-- C2 counterexample: one author ("alice") owning 101 repositories
completes her unit of work (the repository fetch ran and her entry was
recorded — first conjunct), but because the too-many-repositories path
continues without saving, the persisted state after terminating right after
her unit is still the initial one, and the restarted run performs her
repository fetch again (second conjunct): a completed author is
reprocessed. -/
theorem resume_reprocess_cex :
    REvent.record "alice"
        { last_processed := 0, repositories_found := 0, success := true,
          error := some "Skipped - too many repositories (101)" }
      ∈ (processLoop fetchTooMany 0 0 (["alice", "bob"].take 1) (createInitialState 0)).2 ∧
    "alice" ∈ workedAuthors
      (processAuthors fetchTooMany 1000 ["alice", "bob"]
        (lastSaved (processLoop fetchTooMany 0 0 (["alice", "bob"].take 1)
          (createInitialState 0)).2 (createInitialState 0))).2 := by
  constructor
  · decide
  · decide

/-- C2 amended: provided every author the interrupted run completed went
through the record-and-save path (its fetch either failed or returned at
most 100 repositories — the over-100 skip path defers persistence), the
author names are distinct and nonempty, and the restart happens within 7
days, a run interrupted after completing the first `k` authors and
restarted from the persisted state performs the unit of work exactly for
the authors not yet processed: completed authors are not reprocessed and
no author is skipped. -/
theorem processAuthors_resume (fetch : String → Except String (List RepoInfo))
    (authors : List String) (k t1 t2 : Nat)
    (hnodup : authors.Nodup) (hne : ∀ a ∈ authors, a ≠ "")
    (hsmall : ∀ a repos, fetch a = Except.ok repos → repos.length ≤ 100)
    (hk : k ≤ authors.length) (ht : t2 - t1 < 604800000) :
    workedAuthors (processAuthors fetch t2 authors
      (lastSaved (processLoop fetch t1 0 (authors.take k) (createInitialState t1)).2
        (createInitialState t1))).2 = authors.drop k := by
  rcases Nat.eq_zero_or_pos k with hk0 | hkpos
  · subst hk0
    simp only [List.take_zero]
    have h0 : processLoop fetch t1 0 ([] : List String) (createInitialState t1) =
        (createInitialState t1, []) := rfl
    rw [h0, lastSaved_nil]
    have hstart : (createInitialState t1).current_author_index = 0 := rfl
    simp only [processAuthors, hstart, List.drop_zero]
    rw [workedAuthors_append,
      processLoop_worked fetch t2 authors 0 (createInitialState t1) hnodup hne
        (fun a _ => rfl),
      workedAuthors_cons_save, workedAuthors_cons_saveRepos, workedAuthors_nil,
      List.append_nil]
  · have htknd : (authors.take k).Nodup := hnodup.sublist (List.take_sublist k authors)
    have htkne : ∀ a ∈ authors.take k, a ≠ "" :=
      fun a hmem => hne a (List.take_subset k authors hmem)
    have htknone : ∀ a ∈ authors.take k,
        lookupA (createInitialState t1).processed_authors a = none := fun a _ => rfl
    have htake_len : 0 < (authors.take k).length := by
      rw [List.length_take]
      omega
    have htake_ne : authors.take k ≠ [] := List.length_pos.mp htake_len
    obtain ⟨h1, h2, h3⟩ := processLoop_run1 fetch t1 hsmall (authors.take k) 0
      (createInitialState t1) (createInitialState t1) htknd htkne htknone
    obtain ⟨hsv, hidx⟩ := h3 htake_ne
    rw [hsv]
    have hidx' : (processLoop fetch t1 0 (authors.take k)
        (createInitialState t1)).1.current_author_index = k - 1 := by
      rw [hidx, List.length_take]
      omega
    simp only [processAuthors]
    rw [hidx']
    have hklt : k - 1 < authors.length := by omega
    rw [List.drop_eq_getElem_cons hklt]
    have hk1 : k - 1 + 1 = k := by omega
    rw [hk1]
    have hmemtake : authors[k - 1] ∈ authors.take k := by
      have hlt : k - 1 < (authors.take k).length := by
        rw [List.length_take]
        omega
      have hmem := List.getElem_mem hlt
      rw [List.getElem_take] at hmem
      exact hmem
    have ha0ne : authors[k - 1] ≠ "" :=
      hne _ (List.take_subset k authors hmemtake)
    obtain ⟨e, hle, hlast⟩ := h1 _ hmemtake
    have hfresh : (t2 - e.last_processed) / 86400000 < 7 := by
      rw [hlast]
      exact (Nat.div_lt_iff_lt_mul (by norm_num)).mpr (by omega)
    simp only [processLoop, if_neg ha0ne]
    rw [stepAuthor_skip fetch t2 (k - 1) _ _ e hle hfresh]
    have hdrop_none : ∀ b ∈ authors.drop k,
        lookupA (processLoop fetch t1 0 (authors.take k)
          (createInitialState t1)).1.processed_authors b = none := by
      intro b hb
      have hnot : b ∉ authors.take k := fun hmem =>
        List.disjoint_take_drop hnodup (le_refl k) hmem hb
      exact h2 b hnot
    rw [workedAuthors_append, workedAuthors_append, workedAuthors_cons_setIndex,
      workedAuthors_nil,
      processLoop_worked fetch t2 (authors.drop k) (k - 1 + 1)
        { (processLoop fetch t1 0 (authors.take k) (createInitialState t1)).1 with
            current_author_index := k - 1 }
        (hnodup.sublist (List.drop_sublist k authors))
        (fun b hb => hne b (List.drop_subset k authors hb)) hdrop_none,
      workedAuthors_cons_save, workedAuthors_cons_saveRepos, workedAuthors_nil,
      List.append_nil, List.nil_append]

/-- C2 witness: two authors, interruption after the first; the restarted run
works exactly the second author. -/
theorem processAuthors_resume_witness :
    workedAuthors (processAuthors fetchEmpty 5 ["alice", "bob"]
      (lastSaved (processLoop fetchEmpty 0 0 (["alice", "bob"].take 1)
        (createInitialState 0)).2 (createInitialState 0))).2 = ["bob"] :=
  processAuthors_resume fetchEmpty ["alice", "bob"] 1 0 5 (by decide) (by decide)
    (by intro a repos h
        injection h with h2
        rw [← h2]
        decide)
    (by decide) (by decide)

/-! ## C7: record-then-persist discipline -/

theorem savesEachRecord_clone_append (repos : List RepoInfo) (p : Bool) (l : List REvent) :
    savesEachRecord p ((repos.map fun r => REvent.cloneAttempt r.full_name) ++ l) =
      savesEachRecord p l := by
  induction repos with
  | nil => rfl
  | cons r rest ih =>
    simp only [List.map_cons, List.cons_append, savesEachRecord]
    exact ih

theorem savesEachRecord_work_append (fetch : String → Except String (List RepoInfo))
    (now : Nat) (a : String) (s : AuthorFinderState)
    (hsmall : ∀ repos, fetch a = Except.ok repos → repos.length ≤ 100) (l2 : List REvent) :
    savesEachRecord false ((workAuthor fetch now a s).2 ++ l2) = savesEachRecord false l2 := by
  cases hf : fetch a with
  | error msg =>
    simp [workAuthor, hf, savesEachRecord]
  | ok repos =>
    have hlen : ¬ (repos.length > 100) := by
      have := hsmall repos hf
      omega
    simp only [workAuthor, hf, if_neg hlen, processRepos_events, List.cons_append,
      List.append_assoc]
    simp only [savesEachRecord, savesEachRecord_clone_append, List.cons_append,
      Bool.not_false, Bool.true_and, List.nil_append]

theorem savesEachRecord_step_append (fetch : String → Except String (List RepoInfo))
    (now i : Nat) (a : String) (s : AuthorFinderState)
    (hsmall : ∀ repos, fetch a = Except.ok repos → repos.length ≤ 100) (l2 : List REvent) :
    savesEachRecord false ((stepAuthor fetch now i a s).2 ++ l2) = savesEachRecord false l2 := by
  cases hl : lookupA s.processed_authors a with
  | some e =>
    by_cases ht : (now - e.last_processed) / 86400000 < 7
    · rw [stepAuthor_skip fetch now i a s e hl ht]
      simp [savesEachRecord]
    · rw [(stepAuthor_work_stale fetch now i a s e hl ht).2, List.cons_append]
      simp only [savesEachRecord]
      exact savesEachRecord_work_append fetch now a _ hsmall l2
  | none =>
    rw [(stepAuthor_work_none fetch now i a s hl).2, List.cons_append]
    simp only [savesEachRecord]
    exact savesEachRecord_work_append fetch now a _ hsmall l2

theorem savesEachRecord_loop (fetch : String → Except String (List RepoInfo)) (now : Nat)
    (hsmall : ∀ a repos, fetch a = Except.ok repos → repos.length ≤ 100) :
    ∀ (auths : List String) (i : Nat) (s : AuthorFinderState) (l2 : List REvent),
      savesEachRecord false ((processLoop fetch now i auths s).2 ++ l2) =
        savesEachRecord false l2 := by
  intro auths
  induction auths with
  | nil =>
    intro i s l2
    rfl
  | cons a rest ih =>
    intro i s l2
    by_cases ha : a = ""
    · simp only [processLoop, if_pos ha]
      exact ih (i + 1) s l2
    · simp only [processLoop, if_neg ha]
      rw [List.append_assoc,
        savesEachRecord_step_append fetch now i a s (fun repos hr => hsmall a repos hr)]
      exact ih (i + 1) _ l2

/-- C7 counterexample: with the author "alice" owning 101 repositories and
"bob" following her, the run records alice's entry but performs bob's
repository fetch before any state save — the trace fails the
record-then-persist check, so the state is not persisted before moving on. -/
theorem record_without_save_cex :
    savesEachRecord false
      (processAuthors fetchTooMany 0 ["alice", "bob"] (createInitialState 0)).2 = false := by
  decide

/-- C7 amended: provided no author's fetch returns more than 100
repositories (the over-100 skip path records its entry but defers the save),
every recorded `processed_authors` entry — from the success path or the
failure path — is followed by a state save before the next author's work
begins, and the loop continues through every author rather than aborting:
each author's unit of work is performed even when earlier authors failed. -/
theorem record_then_persist (fetch : String → Except String (List RepoInfo))
    (now : Nat) (authors : List String) (s : AuthorFinderState)
    (hsmall : ∀ a repos, fetch a = Except.ok repos → repos.length ≤ 100)
    (hnodup : authors.Nodup) (hne : ∀ a ∈ authors, a ≠ "")
    (hnone : ∀ a ∈ authors, lookupA s.processed_authors a = none)
    (hstart : s.current_author_index = 0) :
    savesEachRecord false (processAuthors fetch now authors s).2 = true ∧
    workedAuthors (processAuthors fetch now authors s).2 = authors := by
  constructor
  · simp only [processAuthors, hstart, List.drop_zero]
    rw [savesEachRecord_loop fetch now hsmall authors 0 s]
    rfl
  · simp only [processAuthors, hstart, List.drop_zero]
    rw [workedAuthors_append, processLoop_worked fetch now authors 0 s hnodup hne hnone,
      workedAuthors_cons_save, workedAuthors_cons_saveRepos, workedAuthors_nil,
      List.append_nil]

/-- C7 witness: a run over two authors, the first of which throws (its fetch
fails), records and saves both entries in order and works both authors. -/
theorem record_then_persist_witness :
    savesEachRecord false
      (processAuthors (fun a => if a = "alice" then Except.error "HTTP 500" else Except.ok [])
        0 ["alice", "bob"] (createInitialState 0)).2 = true ∧
    workedAuthors
      (processAuthors (fun a => if a = "alice" then Except.error "HTTP 500" else Except.ok [])
        0 ["alice", "bob"] (createInitialState 0)).2 = ["alice", "bob"] :=
  record_then_persist (fun a => if a = "alice" then Except.error "HTTP 500" else Except.ok [])
    0 ["alice", "bob"] (createInitialState 0)
    (by intro a repos h
        by_cases ha : a = "alice"
        · simp [ha] at h
        · simp [ha] at h
          rw [h]
          decide)
    (by decide) (by decide) (fun a _ => rfl) rfl

/-! ## C10: no duplicate discoveries; artifact is sorted and deduplicated -/

theorem jsDedupAux_sound : ∀ (l seen : List String),
    (jsDedupAux seen l).Nodup ∧ ∀ x ∈ jsDedupAux seen l, x ∉ seen := by
  intro l
  induction l with
  | nil =>
    intro seen
    exact ⟨List.nodup_nil, by simp [jsDedupAux]⟩
  | cons a rest ih =>
    intro seen
    by_cases hm : a ∈ seen
    · rw [jsDedupAux, if_pos hm]
      exact (ih seen)
    · rw [jsDedupAux, if_neg hm]
      obtain ⟨ihnd, ihseen⟩ := ih (a :: seen)
      refine ⟨List.nodup_cons.mpr ⟨?_, ihnd⟩, ?_⟩
      · intro hmem
        exact ihseen a hmem (List.mem_cons_self a seen)
      · intro x hx
        rcases List.mem_cons.mp hx with rfl | hx'
        · exact hm
        · exact fun hxs => ihseen x hx' (List.mem_cons_of_mem a hxs)

theorem jsDedupAux_of_nodup : ∀ (l seen : List String),
    l.Nodup → (∀ a ∈ l, a ∉ seen) → jsDedupAux seen l = l := by
  intro l
  induction l with
  | nil =>
    intro seen _ _
    rfl
  | cons a rest ih =>
    intro seen hnd hout
    have hm : a ∉ seen := hout a (List.mem_cons_self a rest)
    rw [jsDedupAux, if_neg hm]
    congr 1
    refine ih (a :: seen) (List.nodup_cons.mp hnd).2 ?_
    intro b hb
    intro hbs
    rcases List.mem_cons.mp hbs with rfl | hbs'
    · exact (List.nodup_cons.mp hnd).1 hb
    · exact hout b (List.mem_cons_of_mem a hb) hbs'

theorem jsDedup_nodup (l : List String) : (jsDedup l).Nodup :=
  (jsDedupAux_sound l []).1

theorem jsDedup_of_nodup (l : List String) (h : l.Nodup) : jsDedup l = l :=
  jsDedupAux_of_nodup l [] h (by simp)

theorem sortStrings_length (l : List String) : (sortStrings l).length = l.length :=
  List.length_insertionSort _ l

theorem sortStrings_nodup (l : List String) (h : l.Nodup) : (sortStrings l).Nodup :=
  (List.perm_insertionSort _ l).nodup_iff.mpr h

theorem sortStrings_sorted (l : List String) :
    List.Sorted (fun a b : String => a ≤ b) (sortStrings l) :=
  List.sorted_insertionSort _ l

theorem processLoop_disc_nodup (fetch : String → Except String (List RepoInfo))
    (now : Nat) : ∀ (auths : List String) (i : Nat) (s : AuthorFinderState),
    s.discovered_repositories.Nodup →
    (processLoop fetch now i auths s).1.discovered_repositories.Nodup := by
  intro auths
  induction auths with
  | nil =>
    intro i s h
    exact h
  | cons a rest ih =>
    intro i s h
    by_cases ha : a = ""
    · simp only [processLoop, if_pos ha]
      exact ih (i + 1) s h
    · simp only [processLoop, if_neg ha]
      exact ih (i + 1) _ (stepAuthor_disc_nodup fetch now i a s h)

/-- C10: a run of `processAuthors` starting from a duplicate-free
`discovered_repositories` list never introduces a duplicate (membership is
checked before every push); the published artifact's `repositories` field is
duplicate-free and sorted; and whenever the in-memory list is duplicate-free
the artifact's `count` equals the length of its `repositories` array. -/
theorem discovered_dedup_invariant (fetch : String → Except String (List RepoInfo))
    (now t : Nat) (authors : List String) (s : AuthorFinderState) (l : List String)
    (hnd : s.discovered_repositories.Nodup) :
    (processAuthors fetch now authors s).1.discovered_repositories.Nodup ∧
    (saveDiscoveredData t l).repositories.Nodup ∧
    List.Sorted (fun a b : String => a ≤ b) (saveDiscoveredData t l).repositories ∧
    (l.Nodup → (saveDiscoveredData t l).count = (saveDiscoveredData t l).repositories.length) := by
  refine ⟨?_, ?_, ?_, ?_⟩
  · simp only [processAuthors]
    exact processLoop_disc_nodup fetch now _ _ s hnd
  · exact sortStrings_nodup _ (jsDedup_nodup l)
  · exact sortStrings_sorted _
  · intro hl
    simp only [saveDiscoveredData]
    rw [sortStrings_length, jsDedup_of_nodup l hl]

/-- C10 witness: a concrete run keeps the discovered list duplicate-free,
and the artifact built from a duplicate-free list has matching count and
array length. -/
theorem discovered_dedup_invariant_witness :
    (processAuthors fetchEmpty 0 ["alice"] (createInitialState 0)).1.discovered_repositories.Nodup ∧
    (saveDiscoveredData 3 ["b", "a"]).count = (saveDiscoveredData 3 ["b", "a"]).repositories.length :=
  ⟨(discovered_dedup_invariant fetchEmpty 0 3 ["alice"] (createInitialState 0) ["b", "a"]
      (by decide)).1,
   (discovered_dedup_invariant fetchEmpty 0 3 ["alice"] (createInitialState 0) ["b", "a"]
      (by decide)).2.2.2 (by decide)⟩

end PluginsForum
